import Mathlib

/-!
Verification of the effect construction and attachment protocol of
`cogs5e/models/automation/effects/ieffect.py` (`IEffect.run`, lines 217-321;
`LegacyIEffect.run`, lines 54-147, shares the same guard / stacking /
parenting / attachment logic verbatim and is covered by the same embedding).

The external collaborators (`init.InitiativeEffect.new`, `get_effect`,
`add_effect`, `set_parent`) are not part of the given sources; they are
modelled from the spec (sections 3, 4.2, 4.4, 9) and marked as such.
Per the spec's design note (section 9), the parent back-reference is stored
as an optional effect id rather than an object pointer, and Python object
identity (`is`) on combatants is modelled by id equality.
-/

/-- An initiative effect (the `Effect` entity of section 3): name, duration,
remaining duration, concentration flag, description, optional parent id,
optional owner (combatant) id. -/
structure InitEffect where
  id : Nat
  name : String
  duration : Option Int
  remaining : Option Int
  concentration : Bool
  desc : Option String
  parent : Option Nat
  owner : Option Nat
deriving DecidableEq

/-- A combatant: an identity plus its currently attached effect collection. -/
structure Combatant where
  id : Nat
  effects : List InitEffect
deriving DecidableEq

/-- A value stored in the automation variable table: either an
`IEffectMetaVar` proxy wrapping an effect, or any other Python value,
carried with its type name (used in the error message). -/
inductive MetaVar where
  | proxy (e : InitEffect)
  | other (typeName : String)
deriving DecidableEq

/-- The duration field of a spec: a literal integer or a string expression
(Python duck-types this with `isinstance(self.duration, str)`). -/
inductive DurExpr where
  | lit (i : Int)
  | expr (s : String)
deriving DecidableEq

/-- The caller-supplied effect description (`EffectSpec` of section 3 /
the fields of `IEffect.__init__`). The opaque payload (passive effects,
attacks, buttons) is omitted: it is passed through untouched. -/
structure IEffectSpec where
  name : String
  duration : Option DurExpr
  end_on_turn_end : Bool
  concentration : Bool
  desc : Option String
  stacking : Bool
  save_as : Option String
  parent : Option String
deriving DecidableEq

/-- Errors raised by `run`: `TargetException`, `AutomationException`,
`InvalidArgument`, each carrying its message. -/
inductive RunError where
  | targetException (msg : String)
  | automationException (msg : String)
  | invalidArgument (msg : String)
deriving DecidableEq

/-- The observable outcome of one successful `run`: the returned effect and
conc-conflict list (`IEffectResult`), the variable table after the call, the
target's effect collection after the call (`none` when the target had no
combatant), and the effect passed to `add_effect` (`none` when `add_effect`
was never invoked). -/
structure RunResult where
  effect : InitEffect
  concConflict : List InitEffect
  metavars : List (String × MetaVar)
  targetEffects : Option (List InitEffect)
  attached : Option InitEffect
deriving DecidableEq

/-- The resolution context (`autoctx`): `target = none` means no target at
all (a `TargetException`), `target = some none` is the detached mode
(a target with no combatant), `target = some (some tgt)` is an attached
combatant. `evalInt` is the external `parse_intexpression` evaluator
(`none` = evaluation failure), `annostr` is `parse_annostr`,
`durOverride` is the parsed `args.last("dur", ...)` override,
`concConflictOracle` is the external concentration-conflict computation
performed inside `add_effect`, and `freshId` is the id given to the newly
constructed effect. -/
structure AutoCtx where
  target : Option (Option Combatant)
  concEffect : Option InitEffect
  metavars : List (String × MetaVar)
  durOverride : Option Int
  evalInt : String → Option Int
  annostr : String → String
  concConflictOracle : InitEffect → List InitEffect → List InitEffect
  freshId : Nat

-- ==== decimal rendering of the stack counter ====

/-- Little-endian decimal digits of `n`, fuel-structural so that it reduces
by computation; with `fuel ≥ n` it is the plain base-10 digit expansion.
Embeds Python's decimal formatting of the counter in `f"(name) x(count)"`. -/
def natDigitsF : Nat → Nat → List Nat
  | 0, n => [n % 10]
  | fuel + 1, n => if n < 10 then [n] else n % 10 :: natDigitsF fuel (n / 10)

/-- Little-endian decimal digits of `n`. -/
def natDigits (n : Nat) : List Nat := natDigitsF n n

/-- Decimal string rendering of a natural number (Python `str(count)`). -/
def natRepr (n : Nat) : String := ((natDigits n).reverse.map Nat.digitChar).asString

/-- Value of a little-endian digit list. -/
def fromDigits : List Nat → Nat
  | [] => 0
  | d :: ds => d + 10 * fromDigits ds

/-- The candidate stacking name `"<originalName> x<counter>"`. -/
def stackCand (orig : String) (count : Nat) : String := orig ++ " x" ++ natRepr count

-- ==== modelled external collaborators ====

/-- Modelled from the spec: `get_effect(name, strict=True)` of the target's
effect collection (section 4.4 `hasEffect`) is a strict, case-sensitive,
exact name lookup returning the matching attached effect if one exists. -/
def getEffect (c : Combatant) (nm : String) : Option InitEffect :=
  c.effects.find? (fun e => e.name == nm)

/-- Modelled from the spec: `init.InitiativeEffect.new` constructs an effect
owned by the given combatant (`none` in detached mode, giving `owner = null`
per section 3), with `remaining` initialized from the duration and no
parent. -/
def initNew (owner : Option Nat) (nm : String) (duration : Option Int) (conc : Bool)
    (desc : Option String) (eid : Nat) : InitEffect :=
  { id := eid, name := nm, duration := duration, remaining := duration,
    concentration := conc, desc := desc, parent := none, owner := owner }

/-- Modelled from the spec: `effect.set_parent(parent)` assigns the parent
back-reference, stored as an id per the design note of section 9. -/
def setParent (e : InitEffect) (p : InitEffect) : InitEffect :=
  { e with parent := some p.id }

/-- Modelled from the spec: `add_effect` commits the effect to the target's
collection and returns the concentration conflicts evicted by the external
collaborator (here an oracle supplied by the context); returns the pair
(conc conflicts, updated collection). -/
def addEffect (ctx : AutoCtx) (tgt : Combatant) (e : InitEffect) :
    List InitEffect × List InitEffect :=
  let conflict := ctx.concConflictOracle e tgt.effects
  (conflict, (tgt.effects.filter (fun x => !(conflict.contains x))) ++ [e])

/-- Variable table lookup (`autoctx.metavars.get(name, None)`). -/
def lookupVar (mv : List (String × MetaVar)) (k : String) : Option MetaVar :=
  (mv.find? (fun p => p.1 == k)).map (fun p => p.2)

/-- Variable table assignment (`autoctx.metavars[name] = value`). -/
def setVar (mv : List (String × MetaVar)) (k : String) (v : MetaVar) :
    List (String × MetaVar) :=
  (k, v) :: mv

-- ==== the stages of IEffect.run ====

/-- Message of the `TargetException` raised when no target context exists. -/
def noTargetMsg : String :=
  "Tried to add an effect without a target! Make sure all IEffect effects are inside of a Target effect."

/-- Message of the `InvalidArgument` raised by the self-concentration guard. -/
def selfConcMsg : String :=
  "Concentration spells cannot add concentration effects to the caster."

/-- Message of the `InvalidArgument` raised by a bad `parent` variable,
naming the variable and the actual type found. -/
def parentVarMsg (pv ty : String) : String :=
  "Could not set IEffect parent: The variable `" ++ pv ++ "` is not an IEffectMetaVar (got `" ++
    ty ++ "`)."

/-- Message of the `AutomationException` raised when the duration expression
does not evaluate to an integer. -/
def durMsg (s : String) : String := s ++ " is not an integer (in effect duration)"

/-- Duration resolution (lines 225-231): a string duration is evaluated via
`parse_intexpression`, failure raised as an `AutomationException`; a literal
(or absent) duration is used as-is. -/
def resolveDuration (ctx : AutoCtx) (spec : IEffectSpec) : Except RunError (Option Int) :=
  match spec.duration with
  | some (.expr s) =>
    match ctx.evalInt s with
    | some i => .ok (some i)
    | none => .error (.automationException (durMsg s))
  | some (.lit i) => .ok (some i)
  | none => .ok none

/-- Description resolution (lines 233-238): a truthy (non-empty) description
is annotated and hard-truncated to 500 characters with an ellipsis marker;
an absent or empty description yields null. -/
def resolveDesc (ctx : AutoCtx) (d : Option String) : Option String :=
  match d with
  | none => none
  | some s =>
    if s = "" then none
    else
      let t := ctx.annostr s
      if t.length > 500 then some ((t.take 500) ++ "...") else some t

/-- The caller's `dur` override (line 240): `args.last("dur", duration, int)`
returns the override when present, the resolved duration otherwise. -/
def applyDurOverride (ctx : AutoCtx) (d : Option Int) : Option Int :=
  match ctx.durOverride with
  | some o => some o
  | none => d

/-- Concentration section (lines 265-269): when the caster has a tracked
concentration effect, first the guard — if that effect's combatant is the
target and the spec requires concentration, raise `InvalidArgument` — then
the concentration effect becomes the `conc_parent` candidate. -/
def guardAndConc (ctx : AutoCtx) (spec : IEffectSpec) (tgt : Combatant) :
    Except RunError (Option InitEffect) :=
  match ctx.concEffect with
  | none => .ok none
  | some ce =>
    if ce.owner = some tgt.id ∧ spec.concentration = true then
      .error (.invalidArgument selfConcMsg)
    else .ok (some ce)

/-- The renaming loop (lines 277-281): starting at the given counter, test
`"<orig> x<count>"` against the target's attached effects and increment
until an unused name is found. Fuel-structural; `tgt.effects.length + 1`
fuel always suffices (a free candidate exists by pigeonhole). -/
def stackNameLoop (tgt : Combatant) (orig : String) : Nat → Nat → String
  | 0, count => stackCand orig count
  | fuel + 1, count =>
    match getEffect tgt (stackCand orig count) with
    | some _ => stackNameLoop tgt orig fuel (count + 1)
    | none => stackCand orig count

/-- Stacking section (lines 271-281): when the spec stacks and a strict
same-named effect exists on the target, that effect becomes the stack
parent and the new effect is neutralized (`desc = null`,
`duration = remaining = -1`, `concentration = false`) and renamed by the
loop starting at counter 2; otherwise the effect is unchanged and the
stack parent is null. -/
def applyStacking (tgt : Combatant) (spec : IEffectSpec) (effect : InitEffect) :
    InitEffect × Option InitEffect :=
  if spec.stacking then
    match getEffect tgt effect.name with
    | some sp =>
      ({ effect with
          desc := none, duration := some (-1), remaining := some (-1),
          concentration := false,
          name := stackNameLoop tgt effect.name (tgt.effects.length + 1) 2 }, some sp)
    | none => (effect, none)
  else (effect, none)

/-- Explicit parent resolution (lines 283-292): look up `spec.parent` in the
variable table; absent spec field or absent variable gives no candidate;
a non-proxy value raises `InvalidArgument` naming the variable and the
type found; a proxy yields its underlying effect. -/
def resolveExplicitParent (ctx : AutoCtx) (spec : IEffectSpec) :
    Except RunError (Option InitEffect) :=
  match spec.parent with
  | none => .ok none
  | some pv =>
    match lookupVar ctx.metavars pv with
    | none => .ok none
    | some (.proxy e) => .ok (some e)
    | some (.other ty) => .error (.invalidArgument (parentVarMsg pv ty))

/-- Python's `a or b` on effect references: the first non-null value. -/
def pyOr (a b : Option InitEffect) : Option InitEffect :=
  match a with
  | some x => some x
  | none => b

/-- Parent selection and assignment (lines 294-295):
`stack_parent or explicit_parent or conc_parent`; a single `set_parent`
call when a candidate exists, nothing otherwise. -/
def applyParent (effect : InitEffect)
    (stackParent explicitParent concParent : Option InitEffect) : InitEffect :=
  match pyOr stackParent (pyOr explicitParent concParent) with
  | some p => setParent effect p
  | none => effect

/-- Embedding of `IEffect.run` (lines 217-321): target check, duration and
description resolution, duration override, then — only when the target has
a combatant — effect construction, concentration guard, stacking, explicit
parent resolution, parent assignment, attachment and `save_as` storage; in
detached mode the effect is constructed unowned and never attached. -/
def runIEffect (spec : IEffectSpec) (ctx : AutoCtx) : Except RunError RunResult :=
  match ctx.target with
  | none => .error (.targetException noTargetMsg)
  | some tgtOpt =>
    match resolveDuration ctx spec with
    | .error e => .error e
    | .ok dur0 =>
      let desc := resolveDesc ctx spec.desc
      let duration := applyDurOverride ctx dur0
      match tgtOpt with
      | none =>
        let effect := initNew none spec.name duration spec.concentration desc ctx.freshId
        .ok { effect := effect, concConflict := [], metavars := ctx.metavars,
              targetEffects := none, attached := none }
      | some tgt =>
        let effect := initNew (some tgt.id) spec.name duration spec.concentration desc ctx.freshId
        match guardAndConc ctx spec tgt with
        | .error e => .error e
        | .ok concParent =>
          let sres := applyStacking tgt spec effect
          match resolveExplicitParent ctx spec with
          | .error e => .error e
          | .ok explicitParent =>
            let effect2 := applyParent sres.1 sres.2 explicitParent concParent
            let ares := addEffect ctx tgt effect2
            let mv2 :=
              match spec.save_as with
              | some v => setVar ctx.metavars v (.proxy effect2)
              | none => ctx.metavars
            .ok { effect := effect2, concConflict := ares.1, metavars := mv2,
                  targetEffects := some ares.2, attached := some effect2 }

-- ==== concrete instances used in witnesses and counterexamples ====

/-- A sample attached effect named `"n"` on combatant 0. -/
def effN : InitEffect :=
  { id := 10, name := "n", duration := some 5, remaining := some 5,
    concentration := false, desc := none, parent := none, owner := some 0 }

/-- A sample attached effect named `"n x2"`. -/
def effN2 : InitEffect := { effN with id := 11, name := "n x2" }

/-- A sample attached effect named `"n x3"`. -/
def effN3 : InitEffect := { effN with id := 12, name := "n x3" }

/-- A combatant (id 0) with a single effect named `"n"`. -/
def tgtA : Combatant := { id := 0, effects := [effN] }

/-- A combatant (id 0) with effects named `"n"`, `"n x2"`, `"n x3"`. -/
def tgtB : Combatant := { id := 0, effects := [effN, effN2, effN3] }

/-- A base context targeting the combatant `tgtA`. -/
def baseCtx : AutoCtx :=
  { target := some (some tgtA), concEffect := none, metavars := [],
    durOverride := none, evalInt := fun _ => none, annostr := fun s => s,
    concConflictOracle := fun _ _ => [], freshId := 99 }

/-- A base spec named `"n"` with literal duration 3 and all flags off. -/
def baseSpec : IEffectSpec :=
  { name := "n", duration := some (.lit 3), end_on_turn_end := false,
    concentration := false, desc := none, stacking := false,
    save_as := none, parent := none }

/-- A concentration effect owned by combatant 0 (caster = target). -/
def ceSelf : InitEffect :=
  { id := 20, name := "conc", duration := some 10, remaining := some 10,
    concentration := true, desc := none, parent := none, owner := some 0 }

/-- A concentration effect owned by a different combatant (id 7). -/
def ceOther : InitEffect := { ceSelf with id := 21, owner := some 7 }

/-- Spec requiring concentration. -/
def specConc : IEffectSpec := { baseSpec with concentration := true }

/-- Context whose caster concentrates on an effect attached to the target. -/
def ctxConcSelf : AutoCtx := { baseCtx with concEffect := some ceSelf }

/-- Context whose caster concentrates on an effect attached to combatant 7. -/
def ctxConcOther : AutoCtx := { baseCtx with concEffect := some ceOther }

/-- Stacking spec named `"n"`. -/
def specStack : IEffectSpec := { baseSpec with stacking := true }

/-- Stacking spec that also requires concentration. -/
def specStackConc : IEffectSpec :=
  { baseSpec with stacking := true, concentration := true }

/-- Context targeting the three-effect combatant `tgtB`. -/
def ctxB : AutoCtx := { baseCtx with target := some (some tgtB) }

/-- Detached context: a target with no combatant. -/
def ctxDetached : AutoCtx := { baseCtx with target := some none }

/-- Spec requesting `save_as = "v"`. -/
def specSaveAs : IEffectSpec := { baseSpec with save_as := some "v" }

/-- Context whose variable table binds `"p"` to a non-proxy value and
`"q"` to a proxy of `effN2`. -/
def ctxVars : AutoCtx :=
  { baseCtx with metavars := [("p", .other "str"), ("q", .proxy effN2)] }

/-- Spec with explicit parent variable `"p"` (bound to a non-proxy). -/
def specParentBad : IEffectSpec := { baseSpec with parent := some "p" }

/-- Spec with explicit parent variable `"q"` (bound to a proxy). -/
def specParentGood : IEffectSpec := { baseSpec with parent := some "q" }

/-- Spec whose duration is the string expression `"1d4"`. -/
def specDurExpr : IEffectSpec := { baseSpec with duration := some (.expr "1d4") }

/-- Context with a caller duration override of 7 and a failing evaluator. -/
def ctxOverrideFail : AutoCtx := { baseCtx with durOverride := some 7 }

/-- Context with a caller duration override of 7 and an evaluator mapping
every expression to 3. -/
def ctxOverrideOk : AutoCtx :=
  { baseCtx with durOverride := some 7, evalInt := fun _ => some 3 }

-- ==== properties of the decimal rendering ====

theorem fromDigits_natDigitsF (fuel : Nat) :
    ∀ n, n ≤ fuel → fromDigits (natDigitsF fuel n) = n := by
  induction fuel with
  | zero =>
    intro n h
    have hn : n = 0 := by omega
    subst hn
    simp [natDigitsF, fromDigits]
  | succ fuel ih =>
    intro n h
    rw [natDigitsF]
    by_cases h10 : n < 10
    · simp [h10, fromDigits]
    · simp only [if_neg h10, fromDigits]
      rw [ih (n / 10) (by omega)]
      omega

theorem fromDigits_natDigits (n : Nat) : fromDigits (natDigits n) = n :=
  fromDigits_natDigitsF n n (Nat.le_refl n)

theorem natDigits_injective {a b : Nat} (h : natDigits a = natDigits b) : a = b := by
  have ha := fromDigits_natDigits a
  have hb := fromDigits_natDigits b
  rw [← ha, ← hb, h]

theorem natDigitsF_lt_ten (fuel : Nat) :
    ∀ n, ∀ x ∈ natDigitsF fuel n, x < 10 := by
  induction fuel with
  | zero =>
    intro n x hx
    simp only [natDigitsF, List.mem_singleton] at hx
    omega
  | succ fuel ih =>
    intro n x hx
    rw [natDigitsF] at hx
    by_cases h10 : n < 10
    · simp only [if_pos h10, List.mem_singleton] at hx
      omega
    · simp only [if_neg h10, List.mem_cons] at hx
      rcases hx with hx | hx
      · omega
      · exact ih (n / 10) x hx

theorem natDigits_lt_ten (n : Nat) : ∀ x ∈ natDigits n, x < 10 :=
  natDigitsF_lt_ten n n

theorem digitChar_inj_fin : ∀ a b : Fin 10, Nat.digitChar a = Nat.digitChar b → a = b := by
  decide

theorem map_digitChar_inj :
    ∀ (l1 l2 : List Nat), (∀ x ∈ l1, x < 10) → (∀ x ∈ l2, x < 10) →
      l1.map Nat.digitChar = l2.map Nat.digitChar → l1 = l2 := by
  intro l1
  induction l1 with
  | nil =>
    intro l2 _ _ h
    cases l2 with
    | nil => rfl
    | cons b t2 => simp at h
  | cons a t ih =>
    intro l2 h1 h2 h
    cases l2 with
    | nil => simp at h
    | cons b t2 =>
      simp only [List.map_cons, List.cons.injEq] at h
      obtain ⟨hab, ht⟩ := h
      have hfin := digitChar_inj_fin ⟨a, h1 a (by simp)⟩ ⟨b, h2 b (by simp)⟩ hab
      have hval : a = b := by simpa [Fin.mk.injEq] using hfin
      have htail := ih t2 (fun x hx => h1 x (by simp [hx])) (fun x hx => h2 x (by simp [hx])) ht
      rw [hval, htail]

theorem string_ext {s t : String} (h : s.data = t.data) : s = t :=
  congrArg String.mk h

theorem string_data_append (a b : String) : (a ++ b).data = a.data ++ b.data := by
  cases a
  cases b
  rfl

theorem natRepr_injective {a b : Nat} (h : natRepr a = natRepr b) : a = b := by
  apply natDigits_injective
  unfold natRepr at h
  have h2 : (natDigits a).reverse.map Nat.digitChar = (natDigits b).reverse.map Nat.digitChar := by
    have h1 := congrArg String.data h
    simpa [List.asString] using h1
  have h3 : (natDigits a).reverse = (natDigits b).reverse :=
    map_digitChar_inj _ _
      (fun x hx => natDigits_lt_ten a x (List.mem_reverse.mp hx))
      (fun x hx => natDigits_lt_ten b x (List.mem_reverse.mp hx)) h2
  exact List.reverse_injective h3

theorem stackCand_injective (orig : String) {k1 k2 : Nat}
    (h : stackCand orig k1 = stackCand orig k2) : k1 = k2 := by
  apply natRepr_injective
  have h2 := congrArg String.data h
  simp only [stackCand, string_data_append, List.append_assoc] at h2
  have h4 := List.append_cancel_left (List.append_cancel_left h2)
  exact string_ext h4

-- ==== the renaming loop finds the first free candidate ====

theorem getEffect_eq_none_iff (c : Combatant) (nm : String) :
    getEffect c nm = none ↔ ∀ e ∈ c.effects, e.name ≠ nm := by
  simp [getEffect, List.find?_eq_none]

theorem getEffect_mem_name (c : Combatant) (nm : String)
    (h : getEffect c nm ≠ none) : nm ∈ c.effects.map (fun e => e.name) := by
  rcases ho : getEffect c nm with _ | e
  · exact absurd ho h
  · simp only [getEffect] at ho
    have hmem := List.mem_of_find?_eq_some ho
    have hp := List.find?_some ho
    have hn : e.name = nm := by simpa using hp
    exact List.mem_map.mpr ⟨e, hmem, hn⟩

theorem exists_free_cand (tgt : Combatant) (orig : String) (c : Nat) :
    ∃ k, c ≤ k ∧ k < c + (tgt.effects.length + 1) ∧
      getEffect tgt (stackCand orig k) = none := by
  by_contra hall
  push_neg at hall
  have hmem : ∀ i ∈ Finset.range (tgt.effects.length + 1),
      stackCand orig (c + i) ∈ (tgt.effects.map (fun e => e.name)).toFinset := by
    intro i hi
    rw [Finset.mem_range] at hi
    have h1 := hall (c + i) (by omega) (by omega)
    rw [List.mem_toFinset]
    exact getEffect_mem_name tgt _ h1
  have hinj : Set.InjOn (fun i => stackCand orig (c + i))
      (Finset.range (tgt.effects.length + 1)) := by
    intro i _ j _ hij
    have := stackCand_injective orig hij
    omega
  have hcard := Finset.card_le_card_of_injOn _ hmem hinj
  have hle : (tgt.effects.map (fun e => e.name)).toFinset.card ≤ tgt.effects.length := by
    calc (tgt.effects.map (fun e => e.name)).toFinset.card
        ≤ (tgt.effects.map (fun e => e.name)).length := List.toFinset_card_le _
      _ = tgt.effects.length := List.length_map _ _
  rw [Finset.card_range] at hcard
  omega

theorem stackNameLoop_found (tgt : Combatant) (orig : String) :
    ∀ (fuel count : Nat),
      (∃ k, count ≤ k ∧ k < count + fuel ∧ getEffect tgt (stackCand orig k) = none) →
      ∃ k, count ≤ k ∧ stackNameLoop tgt orig fuel count = stackCand orig k ∧
        getEffect tgt (stackCand orig k) = none ∧
        ∀ j, count ≤ j → j < k → getEffect tgt (stackCand orig j) ≠ none := by
  intro fuel
  induction fuel with
  | zero =>
    intro count h
    obtain ⟨k, h1, h2, _⟩ := h
    omega
  | succ fuel ih =>
    intro count h
    obtain ⟨k, hk1, hk2, hk3⟩ := h
    simp only [stackNameLoop]
    cases hg : getEffect tgt (stackCand orig count) with
    | none =>
      exact ⟨count, Nat.le_refl _, rfl, hg,
        fun j hj1 hj2 => absurd hj2 (by omega)⟩
    | some e =>
      have hkc : k ≠ count := by
        intro he
        rw [← he] at hg
        rw [hk3] at hg
        simp at hg
      obtain ⟨k', h1, h2, h3, h4⟩ := ih (count + 1) ⟨k, by omega, by omega, hk3⟩
      refine ⟨k', by omega, h2, h3, fun j hj1 hj2 => ?_⟩
      rcases Nat.eq_or_lt_of_le hj1 with he | hl
      · rw [← he, hg]
        simp
      · exact h4 j (by omega) hj2

theorem stackName_found (tgt : Combatant) (orig : String) :
    ∃ k, 2 ≤ k ∧
      stackNameLoop tgt orig (tgt.effects.length + 1) 2 = stackCand orig k ∧
      getEffect tgt (stackCand orig k) = none ∧
      ∀ j, 2 ≤ j → j < k → getEffect tgt (stackCand orig j) ≠ none :=
  stackNameLoop_found tgt orig (tgt.effects.length + 1) 2 (exists_free_cand tgt orig 2)

-- ==== unfolding lemmas for runIEffect ====

theorem runIEffect_dur_error (spec : IEffectSpec) (ctx : AutoCtx)
    (tgtOpt : Option Combatant) (e : RunError)
    (ht : ctx.target = some tgtOpt)
    (hd : resolveDuration ctx spec = .error e) :
    runIEffect spec ctx = .error e := by
  simp only [runIEffect, ht, hd]

theorem runIEffect_guard_error (spec : IEffectSpec) (ctx : AutoCtx)
    (tgt : Combatant) (d : Option Int) (e : RunError)
    (ht : ctx.target = some (some tgt))
    (hd : resolveDuration ctx spec = .ok d)
    (hg : guardAndConc ctx spec tgt = .error e) :
    runIEffect spec ctx = .error e := by
  simp only [runIEffect, ht, hd, hg]

theorem runIEffect_parent_error (spec : IEffectSpec) (ctx : AutoCtx)
    (tgt : Combatant) (d : Option Int) (cp : Option InitEffect) (e : RunError)
    (ht : ctx.target = some (some tgt))
    (hd : resolveDuration ctx spec = .ok d)
    (hg : guardAndConc ctx spec tgt = .ok cp)
    (he : resolveExplicitParent ctx spec = .error e) :
    runIEffect spec ctx = .error e := by
  simp only [runIEffect, ht, hd, hg, he]

theorem runIEffect_detached (spec : IEffectSpec) (ctx : AutoCtx) (d : Option Int)
    (ht : ctx.target = some none)
    (hd : resolveDuration ctx spec = .ok d) :
    runIEffect spec ctx =
      .ok { effect := initNew none spec.name (applyDurOverride ctx d)
              spec.concentration (resolveDesc ctx spec.desc) ctx.freshId,
            concConflict := [], metavars := ctx.metavars,
            targetEffects := none, attached := none } := by
  simp only [runIEffect, ht, hd]

theorem runIEffect_attached (spec : IEffectSpec) (ctx : AutoCtx) (tgt : Combatant)
    (d : Option Int) (cp ep : Option InitEffect)
    (ht : ctx.target = some (some tgt))
    (hd : resolveDuration ctx spec = .ok d)
    (hg : guardAndConc ctx spec tgt = .ok cp)
    (he : resolveExplicitParent ctx spec = .ok ep) :
    runIEffect spec ctx =
      (let effect := initNew (some tgt.id) spec.name (applyDurOverride ctx d)
          spec.concentration (resolveDesc ctx spec.desc) ctx.freshId
      let sres := applyStacking tgt spec effect
      let effect2 := applyParent sres.1 sres.2 ep cp
      .ok { effect := effect2, concConflict := (addEffect ctx tgt effect2).1,
            metavars :=
              match spec.save_as with
              | some v => setVar ctx.metavars v (.proxy effect2)
              | none => ctx.metavars,
            targetEffects := some (addEffect ctx tgt effect2).2,
            attached := some effect2 }) := by
  simp only [runIEffect, ht, hd, hg, he]

theorem applyParent_preserves (e : InitEffect) (sp ep cp : Option InitEffect) :
    (applyParent e sp ep cp).name = e.name ∧
    (applyParent e sp ep cp).remaining = e.remaining ∧
    (applyParent e sp ep cp).desc = e.desc ∧
    (applyParent e sp ep cp).concentration = e.concentration ∧
    (applyParent e sp ep cp).duration = e.duration ∧
    (applyParent e sp ep cp).owner = e.owner := by
  unfold applyParent
  cases pyOr sp (pyOr ep cp) <;> simp [setParent]

-- ==== helper lemmas about the stages ====

theorem not_mem_of_getEffect_none (c : Combatant) (nm : String)
    (h : getEffect c nm = none) : nm ∉ c.effects.map (fun e => e.name) := by
  intro hmem
  rw [getEffect_eq_none_iff] at h
  obtain ⟨e, he, hn⟩ := List.mem_map.mp hmem
  exact h e he hn

theorem applyStacking_fields (tgt : Combatant) (spec : IEffectSpec)
    (effect m : InitEffect) (hs : spec.stacking = true)
    (hm : getEffect tgt effect.name = some m) :
    (applyStacking tgt spec effect).1.remaining = some (-1) ∧
    (applyStacking tgt spec effect).1.desc = none ∧
    (applyStacking tgt spec effect).1.concentration = false ∧
    (applyStacking tgt spec effect).1.duration = some (-1) := by
  simp [applyStacking, hs, hm]

theorem applyStacking_name_cases (tgt : Combatant) (spec : IEffectSpec)
    (effect : InitEffect) (hs : spec.stacking = true) :
    (getEffect tgt effect.name = none ∧
      (applyStacking tgt spec effect).1.name = effect.name) ∨
    (∃ m, getEffect tgt effect.name = some m ∧
      (applyStacking tgt spec effect).1.name =
        stackNameLoop tgt effect.name (tgt.effects.length + 1) 2) := by
  cases hm : getEffect tgt effect.name with
  | none =>
    left
    exact ⟨rfl, by simp [applyStacking, hs, hm]⟩
  | some m =>
    right
    exact ⟨m, rfl, by simp [applyStacking, hs, hm]⟩

theorem applyStacking_skip (tgt : Combatant) (spec : IEffectSpec)
    (effect : InitEffect) (hs : spec.stacking = false) :
    applyStacking tgt spec effect = (effect, none) := by
  simp [applyStacking, hs]

theorem lookupVar_setVar (mv : List (String × MetaVar)) (k : String) (v : MetaVar) :
    lookupVar (setVar mv k v) k = some v := by
  simp [lookupVar, setVar, List.find?]

-- ==== C1: parent priority ====

/-- C1: Parent priority. `applyParent` is the parent-selection step invoked
by `runIEffect` (lines 294-295). With all three candidates non-null the
attached effect's parent is the stacking parent's id; with the stacking
parent null but the other two non-null it is the explicit parent's; with
only the concentration parent it is that one's; with all three null the
effect — in particular a freshly constructed one, whose parent is null — is
left untouched, and in every case at most one parent assignment (a single
`set_parent` call, or none) occurs. -/
theorem parent_priority (e s x c : InitEffect) (sp ep cp : Option InitEffect)
    (o : Option Nat) (nm : String) (d : Option Int) (cb : Bool)
    (dc : Option String) (i : Nat) :
    (applyParent e (some s) (some x) (some c)).parent = some s.id ∧
    (applyParent e none (some x) (some c)).parent = some x.id ∧
    (applyParent e none none (some c)).parent = some c.id ∧
    applyParent e none none none = e ∧
    (applyParent (initNew o nm d cb dc i) none none none).parent = none ∧
    (applyParent e sp ep cp = e ∨
      ∃ p, pyOr sp (pyOr ep cp) = some p ∧ applyParent e sp ep cp = setParent e p) := by
  refine ⟨rfl, rfl, rfl, rfl, rfl, ?_⟩
  unfold applyParent
  cases pyOr sp (pyOr ep cp) with
  | none => exact Or.inl rfl
  | some p => exact Or.inr ⟨p, rfl, rfl⟩

-- ==== C2: self-concentration guard ====

/-- C2: Self-concentration guard (lines 265-269). With a concentration
effect active for the caster, a spec requiring concentration, and the
attachment target being the combatant that owns that concentration effect
(the caster), resolution fails with `InvalidArgument`; with the target a
different combatant the guard passes, the concentration effect becomes the
`conc_parent` candidate, and (absent an explicit-parent error) resolution
succeeds. -/
theorem self_conc_guard (spec : IEffectSpec) (ctx : AutoCtx) (tgt : Combatant)
    (ce : InitEffect) (d : Option Int)
    (ht : ctx.target = some (some tgt)) (hc : ctx.concEffect = some ce)
    (hconc : spec.concentration = true)
    (hd : resolveDuration ctx spec = .ok d) :
    (ce.owner = some tgt.id →
      runIEffect spec ctx = .error (.invalidArgument selfConcMsg)) ∧
    (ce.owner ≠ some tgt.id →
      guardAndConc ctx spec tgt = .ok (some ce) ∧
      (spec.parent = none → ∃ r, runIEffect spec ctx = .ok r)) := by
  constructor
  · intro how
    have hg : guardAndConc ctx spec tgt = .error (.invalidArgument selfConcMsg) := by
      simp only [guardAndConc, hc]
      rw [if_pos ⟨how, hconc⟩]
    exact runIEffect_guard_error spec ctx tgt d _ ht hd hg
  · intro how
    have hg : guardAndConc ctx spec tgt = .ok (some ce) := by
      simp only [guardAndConc, hc]
      rw [if_neg (fun hcon => how hcon.1)]
    refine ⟨hg, fun hp => ?_⟩
    have he : resolveExplicitParent ctx spec = .ok none := by
      simp [resolveExplicitParent, hp]
    exact ⟨_, runIEffect_attached spec ctx tgt d (some ce) none ht hd hg he⟩

/-- C2 witness: with caster = target = combatant 0 the guard fires; with the
concentration effect owned by combatant 7 it passes and the effect becomes
the conc-parent candidate, and resolution succeeds. -/
theorem self_conc_guard_witness :
    runIEffect specConc ctxConcSelf = .error (.invalidArgument selfConcMsg) ∧
    guardAndConc ctxConcOther specConc tgtA = .ok (some ceOther) ∧
    (∃ r, runIEffect specConc ctxConcOther = .ok r) := by
  refine ⟨?_, ?_, ?_⟩
  · exact (self_conc_guard specConc ctxConcSelf tgtA ceSelf (some 3) rfl rfl rfl rfl).1 rfl
  · exact ((self_conc_guard specConc ctxConcOther tgtA ceOther (some 3) rfl rfl rfl rfl).2
      (by decide)).1
  · exact ((self_conc_guard specConc ctxConcOther tgtA ceOther (some 3) rfl rfl rfl rfl).2
      (by decide)).2 rfl

-- ==== C3: stacking disambiguation ====

/-- C3: Stacking disambiguation (lines 271-281). Whenever a stacking spec's
name matches an existing effect on the target, the rewritten name is
`"<name> x<k>"` (`stackCand`) for the first counter `k ≥ 2` whose candidate
is unused: the chosen candidate is free and every candidate from 2 up to
`k` exclusive is taken. In particular (see the witness) with existing names
`n`, `n x2`, `n x3` the result is `n x4`, and with only `n` it is `n x2`. -/
theorem stacking_disambiguation (tgt : Combatant) (spec : IEffectSpec)
    (effect m : InitEffect) (hs : spec.stacking = true)
    (hm : getEffect tgt effect.name = some m) :
    ∃ k, 2 ≤ k ∧
      (applyStacking tgt spec effect).1.name = stackCand effect.name k ∧
      getEffect tgt (stackCand effect.name k) = none ∧
      ∀ j, 2 ≤ j → j < k → getEffect tgt (stackCand effect.name j) ≠ none := by
  obtain ⟨k, h1, h2, h3, h4⟩ := stackName_found tgt effect.name
  refine ⟨k, h1, ?_, h3, h4⟩
  simp only [applyStacking, hs, if_true, hm]
  exact h2

/-- C3 witness: against existing names `n`, `n x2`, `n x3` a stacking spec
named `n` is renamed to `n x4`; against `n` alone, to `n x2`. -/
theorem stacking_disambiguation_witness :
    (∃ k, 2 ≤ k ∧
      (applyStacking tgtB specStack (initNew (some 0) "n" (some 3) false none 99)).1.name =
        stackCand "n" k ∧
      getEffect tgtB (stackCand "n" k) = none ∧
      ∀ j, 2 ≤ j → j < k → getEffect tgtB (stackCand "n" j) ≠ none) ∧
    (applyStacking tgtB specStack (initNew (some 0) "n" (some 3) false none 99)).1.name =
      "n x4" ∧
    (applyStacking tgtA specStack (initNew (some 0) "n" (some 3) false none 99)).1.name =
      "n x2" := by
  refine ⟨?_, by decide, by decide⟩
  exact stacking_disambiguation tgtB specStack
    (initNew (some 0) "n" (some 3) false none 99) effN rfl rfl

-- ==== C4: stack neutralization ====

/-- C4: Stack neutralization. Every successful resolution that takes the
stacking path (stacking spec whose name strictly matches an existing effect
on the target) attaches an effect with `remaining = -1`, `desc = null`
and `concentration = false`, whatever the input spec's duration,
description and concentration were. -/
theorem stack_neutralization (spec : IEffectSpec) (ctx : AutoCtx) (tgt : Combatant)
    (m : InitEffect) (r : RunResult)
    (ht : ctx.target = some (some tgt)) (hs : spec.stacking = true)
    (hm : getEffect tgt spec.name = some m)
    (hr : runIEffect spec ctx = .ok r) :
    r.effect.remaining = some (-1) ∧ r.effect.desc = none ∧
    r.effect.concentration = false ∧ r.attached = some r.effect := by
  cases hd : resolveDuration ctx spec with
  | error e =>
    rw [runIEffect_dur_error spec ctx (some tgt) e ht hd] at hr
    cases hr
  | ok d =>
    cases hg : guardAndConc ctx spec tgt with
    | error e =>
      rw [runIEffect_guard_error spec ctx tgt d e ht hd hg] at hr
      cases hr
    | ok cp =>
      cases he : resolveExplicitParent ctx spec with
      | error e =>
        rw [runIEffect_parent_error spec ctx tgt d cp e ht hd hg he] at hr
        cases hr
      | ok ep =>
        rw [runIEffect_attached spec ctx tgt d cp ep ht hd hg he] at hr
        simp only [Except.ok.injEq] at hr
        subst hr
        obtain ⟨hn, hrem, hdesc, hcc, hdur, how⟩ := applyParent_preserves
          ((applyStacking tgt spec (initNew (some tgt.id) spec.name
            (applyDurOverride ctx d) spec.concentration
            (resolveDesc ctx spec.desc) ctx.freshId)).1)
          ((applyStacking tgt spec (initNew (some tgt.id) spec.name
            (applyDurOverride ctx d) spec.concentration
            (resolveDesc ctx spec.desc) ctx.freshId)).2) ep cp
        obtain ⟨h1, h2, h3, _⟩ := applyStacking_fields tgt spec
          (initNew (some tgt.id) spec.name (applyDurOverride ctx d)
            spec.concentration (resolveDesc ctx spec.desc) ctx.freshId) m hs hm
        exact ⟨by rw [hrem, h1], by rw [hdesc, h2], by rw [hcc, h3], rfl⟩

/-- C4 witness: a stacking spec with duration 3, no description and no
concentration, applied where `n` exists, attaches with `remaining = -1`,
no description and concentration off. -/
theorem stack_neutralization_witness :
    (runIEffect specStack baseCtx).toOption.map
      (fun r => (r.effect.remaining, r.effect.desc, r.effect.concentration)) =
      some (some (-1), none, false) := by
  obtain ⟨r, hr⟩ : ∃ r, runIEffect specStack baseCtx = .ok r := ⟨_, rfl⟩
  have h := stack_neutralization specStack baseCtx tgtA effN r rfl rfl rfl hr
  rw [hr]
  simp only [Except.toOption, Option.map]
  rw [h.1, h.2.1, h.2.2.1]

-- ==== C5: ordering of stacking versus the concentration guard ====

/-- C5 counterexample: the claim predicts that with a stacking,
concentration-requiring spec whose name matches an existing effect on the
target, target = caster and an active concentration effect, the stacking
neutralization runs first and resolution succeeds. On the code the
concentration guard (lines 265-269) runs before the stacking rewrite
(lines 271-281) and tests the spec's own concentration flag, so this very
input raises `InvalidArgument`. -/
theorem stacking_guard_order_cex :
    specStackConc.stacking = true ∧ specStackConc.concentration = true ∧
    getEffect tgtA specStackConc.name = some effN ∧
    ctxConcSelf.concEffect = some ceSelf ∧ ceSelf.owner = some tgtA.id ∧
    ctxConcSelf.target = some (some tgtA) ∧
    runIEffect specStackConc ctxConcSelf = .error (.invalidArgument selfConcMsg) :=
  ⟨rfl, rfl, rfl, rfl, rfl, rfl, rfl⟩

/-- C5 amended: within one resolution the concentration guard is evaluated
before the stacking rewrite and reads the spec's concentration flag (which
stacking never mutates), so a spec with `stacking = true` and
`concentration = true` whose name matches an existing effect on the target,
with target = caster and an active concentration effect, fails with
`InvalidArgument` — the stacking neutralization does not bypass the guard. -/
theorem guard_precedes_stacking (spec : IEffectSpec) (ctx : AutoCtx)
    (tgt : Combatant) (ce m : InitEffect) (d : Option Int)
    (ht : ctx.target = some (some tgt)) (hc : ctx.concEffect = some ce)
    (howner : ce.owner = some tgt.id) (hconc : spec.concentration = true)
    (_hs : spec.stacking = true) (_hm : getEffect tgt spec.name = some m)
    (hd : resolveDuration ctx spec = .ok d) :
    runIEffect spec ctx = .error (.invalidArgument selfConcMsg) := by
  have hg : guardAndConc ctx spec tgt = .error (.invalidArgument selfConcMsg) := by
    simp only [guardAndConc, hc]
    rw [if_pos ⟨howner, hconc⟩]
  exact runIEffect_guard_error spec ctx tgt d _ ht hd hg

/-- C5 amended witness: the concrete scenario of the counterexample,
derived from the amended theorem. -/
theorem guard_precedes_stacking_witness :
    runIEffect specStackConc ctxConcSelf = .error (.invalidArgument selfConcMsg) :=
  guard_precedes_stacking specStackConc ctxConcSelf tgtA ceSelf effN (some 3)
    rfl rfl rfl rfl rfl rfl rfl

-- ==== C6: name uniqueness at attachment ====

/-- C6 counterexample: the claim asserts name uniqueness at attachment
whether or not the spec stacks. With `stacking = false` and an effect
named `n` already attached, the code attaches a second effect also named
`n` — a strict name collision at the moment `add_effect` is invoked. -/
theorem name_collision_cex :
    baseSpec.stacking = false ∧
    "n" ∈ tgtA.effects.map (fun e => e.name) ∧
    (runIEffect baseSpec baseCtx).toOption.map
      (fun r => r.attached.map (fun e => e.name)) = some (some "n") :=
  ⟨rfl, by decide, by decide⟩

/-- C6 amended: for every resolution with `stacking = true` that attaches
an effect, the chosen name does not strictly match the name of any effect
already attached to the target at the moment `add_effect` is invoked
(without stacking the code attaches duplicates freely; the spec itself
says names are "not required unique"). -/
theorem stacking_name_unique (spec : IEffectSpec) (ctx : AutoCtx) (tgt : Combatant)
    (r : RunResult) (e : InitEffect)
    (ht : ctx.target = some (some tgt)) (hs : spec.stacking = true)
    (hr : runIEffect spec ctx = .ok r) (ha : r.attached = some e) :
    e.name ∉ tgt.effects.map (fun x => x.name) := by
  cases hd : resolveDuration ctx spec with
  | error e2 =>
    rw [runIEffect_dur_error spec ctx (some tgt) e2 ht hd] at hr
    cases hr
  | ok d =>
    cases hg : guardAndConc ctx spec tgt with
    | error e2 =>
      rw [runIEffect_guard_error spec ctx tgt d e2 ht hd hg] at hr
      cases hr
    | ok cp =>
      cases he : resolveExplicitParent ctx spec with
      | error e2 =>
        rw [runIEffect_parent_error spec ctx tgt d cp e2 ht hd hg he] at hr
        cases hr
      | ok ep =>
        rw [runIEffect_attached spec ctx tgt d cp ep ht hd hg he] at hr
        simp only [Except.ok.injEq] at hr
        subst hr
        simp only at ha
        have he2 : e = applyParent
            ((applyStacking tgt spec (initNew (some tgt.id) spec.name
              (applyDurOverride ctx d) spec.concentration
              (resolveDesc ctx spec.desc) ctx.freshId)).1)
            ((applyStacking tgt spec (initNew (some tgt.id) spec.name
              (applyDurOverride ctx d) spec.concentration
              (resolveDesc ctx spec.desc) ctx.freshId)).2) ep cp := by
          exact (Option.some.injEq _ _).mp ha.symm
        rw [he2, (applyParent_preserves _ _ _ _).1]
        rcases applyStacking_name_cases tgt spec
          (initNew (some tgt.id) spec.name (applyDurOverride ctx d)
            spec.concentration (resolveDesc ctx spec.desc) ctx.freshId) hs with
          ⟨hnone, hname⟩ | ⟨m, _, hname⟩
        · rw [hname]
          exact not_mem_of_getEffect_none tgt _ hnone
        · rw [hname]
          obtain ⟨k, _, hloop, hfree, _⟩ := stackName_found tgt
            (initNew (some tgt.id) spec.name (applyDurOverride ctx d)
              spec.concentration (resolveDesc ctx spec.desc) ctx.freshId).name
          rw [hloop]
          exact not_mem_of_getEffect_none tgt _ hfree

/-- C6 amended witness: a stacking resolution against a target that already
has `n` attaches under the fresh name `n x2`, which is not among the
existing names. -/
theorem stacking_name_unique_witness :
    "n x2" ∉ tgtA.effects.map (fun e => e.name) := by
  obtain ⟨r, hr⟩ : ∃ r, runIEffect specStack baseCtx = .ok r := ⟨_, rfl⟩
  have ha : r.attached = some r.effect := by
    have h3 : (runIEffect specStack baseCtx).toOption.map
        (fun x => decide (x.attached = some x.effect)) = some true := by decide
    rw [hr] at h3
    simpa [Except.toOption] using h3
  have hname : r.effect.name = "n x2" := by
    have h3 : (runIEffect specStack baseCtx).toOption.map (fun x => x.effect.name) =
        some "n x2" := by decide
    rw [hr] at h3
    simpa [Except.toOption] using h3
  have h2 := stacking_name_unique specStack baseCtx tgtA r r.effect rfl rfl hr ha
  rw [hname] at h2
  exact h2

-- ==== C7: MetaVarProxy storage ====

/-- C7 counterexample: the claim says a proxy is stored under `saveAsVar`
even in detached mode. In detached mode (target with no combatant) the
`save_as` block (lines 303-305) is inside the attached branch and never
runs: with `save_as = "v"` set, the variable table is returned unchanged
(empty), so nothing is stored under `"v"`. -/
theorem detached_save_as_cex :
    specSaveAs.save_as = some "v" ∧ ctxDetached.target = some none ∧
    ctxDetached.metavars = [] ∧
    (runIEffect specSaveAs ctxDetached).toOption.map (fun r => r.metavars) =
      some [] :=
  ⟨rfl, rfl, rfl, by decide⟩

/-- C7 amended: when `save_as` is present, every successful attached-mode
resolution stores an `IEffectMetaVar` proxy wrapping the created effect
under that variable name; in detached mode the variable table is returned
unchanged and no proxy is stored. -/
theorem save_as_behavior (spec : IEffectSpec) (ctx : AutoCtx) (v : String)
    (hv : spec.save_as = some v) :
    (∀ tgt r, ctx.target = some (some tgt) → runIEffect spec ctx = .ok r →
      lookupVar r.metavars v = some (.proxy r.effect)) ∧
    (∀ r, ctx.target = some none → runIEffect spec ctx = .ok r →
      r.metavars = ctx.metavars) := by
  constructor
  · intro tgt r ht hr
    cases hd : resolveDuration ctx spec with
    | error e2 =>
      rw [runIEffect_dur_error spec ctx (some tgt) e2 ht hd] at hr
      cases hr
    | ok d =>
      cases hg : guardAndConc ctx spec tgt with
      | error e2 =>
        rw [runIEffect_guard_error spec ctx tgt d e2 ht hd hg] at hr
        cases hr
      | ok cp =>
        cases he : resolveExplicitParent ctx spec with
        | error e2 =>
          rw [runIEffect_parent_error spec ctx tgt d cp e2 ht hd hg he] at hr
          cases hr
        | ok ep =>
          rw [runIEffect_attached spec ctx tgt d cp ep ht hd hg he] at hr
          simp only [Except.ok.injEq] at hr
          subst hr
          simp only [hv]
          exact lookupVar_setVar ctx.metavars v _
  · intro r ht hr
    cases hd : resolveDuration ctx spec with
    | error e2 =>
      rw [runIEffect_dur_error spec ctx none e2 ht hd] at hr
      cases hr
    | ok d =>
      rw [runIEffect_detached spec ctx d ht hd] at hr
      simp only [Except.ok.injEq] at hr
      subst hr
      rfl

/-- C7 amended witness: attached mode stores the proxy of the created
effect under `"v"`; detached mode leaves the (empty) table unchanged. -/
theorem save_as_behavior_witness :
    (runIEffect specSaveAs baseCtx).toOption.map
      (fun r => decide (lookupVar r.metavars "v" = some (.proxy r.effect))) =
      some true ∧
    (runIEffect specSaveAs ctxDetached).toOption.map (fun r => r.metavars) =
      some [] := by
  constructor
  · obtain ⟨r, hr⟩ : ∃ r, runIEffect specSaveAs baseCtx = .ok r := ⟨_, rfl⟩
    have h := (save_as_behavior specSaveAs baseCtx "v" rfl).1 tgtA r rfl hr
    rw [hr]
    simp only [Except.toOption, Option.map, h]
    simp
  · obtain ⟨r, hr⟩ : ∃ r, runIEffect specSaveAs ctxDetached = .ok r := ⟨_, rfl⟩
    have h := (save_as_behavior specSaveAs ctxDetached "v" rfl).2 r rfl hr
    rw [hr]
    simp only [Except.toOption, Option.map, h]
    rfl

-- ==== C8: detached mode ====

/-- C8: Detached mode (lines 248-249 and 306-321). When the target context
has no combatant, `add_effect` is never invoked (no effect is ever passed
to it and the collection is untouched), the returned conc-conflict list is
the empty list initialized at line 248, and the returned effect is
constructed with no combat and no combatant, so its owner is null. -/
theorem detached_mode (spec : IEffectSpec) (ctx : AutoCtx) (r : RunResult)
    (ht : ctx.target = some none) (hr : runIEffect spec ctx = .ok r) :
    r.attached = none ∧ r.concConflict = [] ∧ r.effect.owner = none ∧
    r.targetEffects = none := by
  cases hd : resolveDuration ctx spec with
  | error e =>
    rw [runIEffect_dur_error spec ctx none e ht hd] at hr
    cases hr
  | ok d =>
    rw [runIEffect_detached spec ctx d ht hd] at hr
    simp only [Except.ok.injEq] at hr
    subst hr
    exact ⟨rfl, rfl, rfl, rfl⟩

/-- C8 witness: the base spec resolved in the detached context. -/
theorem detached_mode_witness :
    (runIEffect baseSpec ctxDetached).toOption.map
      (fun r => (r.attached, r.concConflict, r.effect.owner, r.targetEffects)) =
      some (none, [], none, none) := by
  obtain ⟨r, hr⟩ : ∃ r, runIEffect baseSpec ctxDetached = .ok r := ⟨_, rfl⟩
  have h := detached_mode baseSpec ctxDetached r rfl hr
  rw [hr]
  simp only [Except.toOption, Option.map]
  rw [h.1, h.2.1, h.2.2.1, h.2.2.2]

-- ==== C9: explicit parent variable resolution ====

/-- C9: Explicit parent variable resolution (lines 283-292). With
`spec.parent` set: a table value that is not a proxy fails with
`InvalidArgument` naming the variable and the type found (and the whole
resolution fails with that error); an absent variable yields a null
candidate and no error; a proxy yields its underlying effect as the
candidate. -/
theorem explicit_parent_resolution (ctx : AutoCtx) (spec : IEffectSpec)
    (pv : String) (hp : spec.parent = some pv) :
    (∀ ty, lookupVar ctx.metavars pv = some (.other ty) →
      resolveExplicitParent ctx spec = .error (.invalidArgument (parentVarMsg pv ty))) ∧
    (lookupVar ctx.metavars pv = none → resolveExplicitParent ctx spec = .ok none) ∧
    (∀ e, lookupVar ctx.metavars pv = some (.proxy e) →
      resolveExplicitParent ctx spec = .ok (some e)) ∧
    (∀ tgt d cp ty, ctx.target = some (some tgt) →
      resolveDuration ctx spec = .ok d → guardAndConc ctx spec tgt = .ok cp →
      lookupVar ctx.metavars pv = some (.other ty) →
      runIEffect spec ctx = .error (.invalidArgument (parentVarMsg pv ty))) := by
  refine ⟨?_, ?_, ?_, ?_⟩
  · intro ty hl
    simp [resolveExplicitParent, hp, hl]
  · intro hl
    simp [resolveExplicitParent, hp, hl]
  · intro e hl
    simp [resolveExplicitParent, hp, hl]
  · intro tgt d cp ty ht hd hg hl
    exact runIEffect_parent_error spec ctx tgt d cp _ ht hd hg
      (by simp [resolveExplicitParent, hp, hl])

/-- C9 witness: `"p"` bound to a non-proxy (type name `str`) makes the
resolution fail with the message naming `p` and `str`; `"q"` bound to a
proxy yields its underlying effect; an unbound `"p"` yields no candidate
and no error. -/
theorem explicit_parent_resolution_witness :
    runIEffect specParentBad ctxVars = .error (.invalidArgument (parentVarMsg "p" "str")) ∧
    resolveExplicitParent ctxVars specParentGood = .ok (some effN2) ∧
    resolveExplicitParent baseCtx specParentBad = .ok none := by
  refine ⟨?_, ?_, ?_⟩
  · exact (explicit_parent_resolution ctxVars specParentBad "p" rfl).2.2.2
      tgtA (some 3) none "str" rfl rfl rfl rfl
  · exact (explicit_parent_resolution ctxVars specParentGood "q" rfl).2.2.1 effN2 rfl
  · exact (explicit_parent_resolution baseCtx specParentBad "p" rfl).2.1 rfl

-- ==== C10: duration override does not bypass evaluation ====

/-- C10: Duration evaluation order (lines 225-231 versus line 240). A
string duration expression is evaluated before the caller's `dur` override
is consulted: a failing expression raises the `AutomationException` even
when an override is supplied; a succeeding expression combined with an
override yields the override as the effect's duration (stated for
non-stacking resolutions, since the stacking path later rewrites the
duration to -1). -/
theorem duration_eval_order (spec : IEffectSpec) (ctx : AutoCtx) (s : String)
    (hs : spec.duration = some (.expr s)) :
    (∀ tgtOpt o, ctx.target = some tgtOpt → ctx.durOverride = some o →
      ctx.evalInt s = none →
      runIEffect spec ctx = .error (.automationException (durMsg s))) ∧
    (∀ i o r, ctx.evalInt s = some i → ctx.durOverride = some o →
      spec.stacking = false → runIEffect spec ctx = .ok r →
      r.effect.duration = some o) := by
  constructor
  · intro tgtOpt o ht hov heval
    exact runIEffect_dur_error spec ctx tgtOpt _ ht
      (by simp [resolveDuration, hs, heval])
  · intro i o r heval hov hstack hr
    have hd : resolveDuration ctx spec = .ok (some i) := by
      simp [resolveDuration, hs, heval]
    have hover : applyDurOverride ctx (some i) = some o := by
      simp [applyDurOverride, hov]
    cases hct : ctx.target with
    | none =>
      simp only [runIEffect, hct] at hr
      cases hr
    | some tgtOpt =>
      cases tgtOpt with
      | none =>
        rw [runIEffect_detached spec ctx (some i) hct hd] at hr
        simp only [Except.ok.injEq] at hr
        subst hr
        simp only [initNew, hover]
      | some tgt =>
        cases hg : guardAndConc ctx spec tgt with
        | error e2 =>
          rw [runIEffect_guard_error spec ctx tgt (some i) e2 hct hd hg] at hr
          cases hr
        | ok cp =>
          cases he : resolveExplicitParent ctx spec with
          | error e2 =>
            rw [runIEffect_parent_error spec ctx tgt (some i) cp e2 hct hd hg he] at hr
            cases hr
          | ok ep =>
            rw [runIEffect_attached spec ctx tgt (some i) cp ep hct hd hg he] at hr
            simp only [Except.ok.injEq] at hr
            subst hr
            rw [(applyParent_preserves _ _ _ _).2.2.2.2.1,
              applyStacking_skip tgt spec _ hstack]
            simp only [initNew, hover]

/-- C10 witness: with the expression `"1d4"`, an override of 7 and a
failing evaluator the resolution raises the duration error; with an
evaluator returning 3 the attached effect's duration is the override 7. -/
theorem duration_eval_order_witness :
    runIEffect specDurExpr ctxOverrideFail =
      .error (.automationException (durMsg "1d4")) ∧
    (runIEffect specDurExpr ctxOverrideOk).toOption.map
      (fun r => r.effect.duration) = some (some 7) := by
  constructor
  · exact (duration_eval_order specDurExpr ctxOverrideFail "1d4" rfl).1
      (some tgtA) 7 rfl rfl rfl
  · obtain ⟨r, hr⟩ : ∃ r, runIEffect specDurExpr ctxOverrideOk = .ok r := ⟨_, rfl⟩
    have h := (duration_eval_order specDurExpr ctxOverrideOk "1d4" rfl).2
      3 7 r rfl rfl rfl hr
    rw [hr]
    simp only [Except.toOption, Option.map]
    rw [h]
